import Mathlib

/-!
Verification of the deterministic client-side logic of the AI meal app:
the feasibility / shopping-list calculator in `components/RecipeCard.tsx`
and the batch recipe-generation pipeline in the application root component.

Modelling conventions:
* JavaScript numbers are modelled as exact rationals (`ℚ`); `Math.floor`
  becomes `Int.floor`.
* `String.toLowerCase()` is modelled by Lean's `String.toLower`
  (the two agree on ASCII, which covers every comparison exercised here;
  the hard-coded staple words are already lower-case).
* `str.replace(/s$/, '')` becomes dropping a final 's' character.
* The asynchronous image loop is modelled as a pure function producing the
  final recipe list together with a trace of observable events
  (state publications and fixed delays).
-/

namespace MealApp

/-- Data model: a pantry item (`AvailableIngredient` in `types.ts`). -/
structure AvailableIngredient where
  name : String
  quantity : ℚ
  unit : String
deriving DecidableEq, Repr

/-- Data model: a recipe ingredient with a per-serving quantity (`Ingredient` in `types.ts`). -/
structure Ingredient where
  name : String
  quantity : ℚ
  unit : String
deriving DecidableEq, Repr

/-- Data model: a recipe (`Recipe` in `types.ts`); `imageUrl` is absent until image generation. -/
structure Recipe where
  recipeName : String
  description : String
  ingredients : List Ingredient
  instructions : List String
  calories : Option ℚ := none
  imageUrl : Option String := none
deriving DecidableEq, Repr

/-- Data model: one entry of the derived shopping list (`ShoppingListItem` in `types.ts`). -/
structure ShoppingListItem where
  name : String
  amountToBuy : ℚ
  unit : String
deriving DecidableEq, Repr

/-- Whether the first character list starts the second one (helper for substring search). -/
def charsLeads : List Char → List Char → Bool
  | [], _ => true
  | _ :: _, [] => false
  | a :: as, b :: bs => (a == b) && charsLeads as bs

/-- Whether `needle` occurs as a contiguous substring of the second list
(model of JavaScript `String.prototype.includes`). -/
def charsHasSubstr (needle : List Char) : List Char → Bool
  | [] => charsLeads needle []
  | c :: rest => charsLeads needle (c :: rest) || charsHasSubstr needle rest

/-- Model of `hay.includes(needle)` on strings. -/
def strContains (hay needle : String) : Bool :=
  charsHasSubstr needle.data hay.data

/-- Model of `String.prototype.toLowerCase`, applied character by character
(`Char.toLower` agrees with JavaScript on ASCII, which covers every
comparison exercised here; the hard-coded word lists are already lower-case). -/
def strToLower (s : String) : String :=
  String.mk (s.data.map Char.toLower)

/-- Model of `normalizeString` in `RecipeCard.tsx` line 30:
lower-case, then strip one trailing "s". -/
def normalizeString (s : String) : String :=
  let t := strToLower s
  if t.data.getLast? = some 's' then String.mk t.data.dropLast else t

/-- The multilingual pantry-staple word list of `RecipeCard.tsx` lines 20 to 28. -/
def pantryStaples : List String :=
  ["salt", "pepper", "oil", "water", "sugar",
   "socker", "peppar", "olja", "vatten",
   "salz", "pfeffer", "öl", "wasser", "zucker",
   "sel", "poivre", "huile", "eau", "sucre",
   "sal", "pimienta", "aceite", "agua", "azúcar",
   "sale", "pepe", "olio", "acqua", "zucchero",
   "sol", "papar", "ulje", "voda", "šećer"]

/-- Model of `isPantryStaple` in `RecipeCard.tsx` lines 32 to 36:
the normalized name contains some staple word as a substring. -/
def isPantryStaple (name : String) : Bool :=
  pantryStaples.any fun staple => strContains (normalizeString name) staple

/-- The discrete-unit equivalence class of `RecipeCard.tsx` line 39. -/
def discreteUnits : List String := ["unit", "st", "styck", "piece", "item"]

/-- The pantry lookup used throughout `RecipeCard.tsx`:
first pantry entry whose normalized name equals the ingredient's normalized name. -/
def findAvail (available : List AvailableIngredient) (ing : Ingredient) :
    Option AvailableIngredient :=
  available.find? fun a => normalizeString a.name == normalizeString ing.name

/-- Unit compatibility in `calculateMaxServings` (`RecipeCard.tsx` lines 54 to 58):
normalized units identical, or both in the discrete-unit class. -/
def unitsMatch (a : AvailableIngredient) (ing : Ingredient) : Bool :=
  (normalizeString a.unit == normalizeString ing.unit) ||
  (discreteUnits.contains (normalizeString a.unit) &&
   discreteUnits.contains (normalizeString ing.unit))

/-- Accumulator update of the `maxPossible` running minimum
(`none` models the initial `Infinity`). -/
def combineBound (acc : Option ℤ) (possible : ℤ) : Option ℤ :=
  match acc with
  | none => some possible
  | some m => some (min m possible)

/-- The ingredient loop of `calculateMaxServings` (`RecipeCard.tsx` lines 44 to 78),
with the running minimum `maxPossible` made explicit (`none` = `Infinity`). -/
def maxServingsLoop (available : List AvailableIngredient) :
    List Ingredient → Option ℤ → ℤ
  | [], none => 20
  | [], some m => max 0 m
  | ing :: rest, acc =>
    match isPantryStaple ing.name, findAvail available ing with
    | true, _ => maxServingsLoop available rest acc
    | false, none => 0
    | false, some a =>
      if 0 < ing.quantity then
        if unitsMatch a ing then
          maxServingsLoop available rest
            (combineBound acc (Int.floor (a.quantity / ing.quantity)))
        else 0
      else maxServingsLoop available rest acc

/-- Model of `calculateMaxServings` in `RecipeCard.tsx` lines 41 to 79. -/
def calculateMaxServings (recipe : Recipe) (available : List AvailableIngredient) : ℤ :=
  maxServingsLoop available recipe.ingredients none

/-- Model of `parseFloat(x.toFixed(2))`: round to two decimal places (half up). -/
def round2 (q : ℚ) : ℚ := (Int.floor (q * 100 + 1 / 2) : ℚ) / 100

/-- The per-ingredient shortfall of the shopping-list rendering
(`RecipeCard.tsx` lines 197 to 206): pantry quantity counts only under
strict normalized-unit equality; a name match with a different unit
leaves the shortfall at 0. -/
def shortfallOf (available : List AvailableIngredient) (s : ℕ) (ing : Ingredient) : ℚ :=
  let needed := ing.quantity * s
  match findAvail available ing with
  | some a =>
    if normalizeString a.unit == normalizeString ing.unit then
      max 0 (needed - a.quantity)
    else 0
  | none => needed

/-- The shopping list emitted by the ingredient tab of `RecipeCard.tsx`
lines 196 to 220: one "buy" entry per ingredient with
`servingCount > maxServings`, positive shortfall, and a non-staple name. -/
def computeShoppingList (recipe : Recipe) (available : List AvailableIngredient)
    (s : ℕ) : List ShoppingListItem :=
  let ms := calculateMaxServings recipe available
  recipe.ingredients.filterMap fun ing =>
    let sf := shortfallOf available s ing
    if ms < (s : ℤ) ∧ 0 < sf ∧ isPantryStaple ing.name = false then
      some { name := ing.name, amountToBuy := round2 sf, unit := ing.unit }
    else none

/-! ### Batch generation pipeline (application root component) -/

/-- The staple word list used by the defensive filter in the application root
component (`handleRecipeGeneration` / `handleGenerateMoreRecipes`):
only the four English words. -/
def appPantryStaples : List String := ["salt", "pepper", "oil", "water"]

/-- One ingredient passes the defensive filter when its normalized name
contains one of the four staple words, or some pantry entry has the same
normalized name (no unit comparison). -/
def appIngredientOk (pantry : List AvailableIngredient) (ing : Ingredient) : Bool :=
  (appPantryStaples.any fun staple => strContains (normalizeString ing.name) staple) ||
  (pantry.any fun a => normalizeString a.name == normalizeString ing.name)

/-- The defensive recipe filter of the root component: keep a candidate
recipe when every ingredient passes `appIngredientOk`. -/
def filterRecipesApp (pantry : List AvailableIngredient) (rs : List Recipe) : List Recipe :=
  rs.filter fun r => r.ingredients.all (appIngredientOk pantry)

/-- Observable events of the image-generation loop: a state publication of
the current recipe list (`setRecipes`) or a fixed delay in milliseconds. -/
inductive PipeEvent where
  | publish (rs : List Recipe)
  | delay (ms : ℕ)
deriving DecidableEq, Repr

/-- Image attachment on success; identity on failure
(`recipesToUpdate[i] = { ...recipesToUpdate[i], imageUrl }`). -/
def applyImage (gen : String → String → Option String) (r : Recipe) : Recipe :=
  match gen r.recipeName r.description with
  | some url => { r with imageUrl := some url }
  | none => r

/-- The sequential image loop of the root component: `done` is the already
processed head of `recipesToUpdate`, the second list the unprocessed tail.
On success the updated full list is published; on failure nothing is
published; after every recipe except the last a fixed 1500 ms delay runs. -/
def imageLoopAux (gen : String → String → Option String) :
    List Recipe → List Recipe → List Recipe × List PipeEvent
  | done, [] => (done, [])
  | done, r :: rest =>
    let cur := applyImage gen r
    let evs : List PipeEvent :=
      match gen r.recipeName r.description with
      | some _ => [PipeEvent.publish (done ++ cur :: rest)]
      | none => []
    let delayEvs : List PipeEvent :=
      if rest.isEmpty then [] else [PipeEvent.delay 1500]
    let next := imageLoopAux gen (done ++ [cur]) rest
    (next.1, evs ++ delayEvs ++ next.2)

/-- The image loop started on a fresh batch (`i = 0`). -/
def runImagePipeline (gen : String → String → Option String) (rs : List Recipe) :
    List Recipe × List PipeEvent :=
  imageLoopAux gen [] rs

/-- Terminal outcome of one generation request: the error screen with a
message, or the results screen with a recipe list. -/
inductive GenOutcome where
  | errorState (msg : String)
  | results (recipes : List Recipe)
deriving DecidableEq, Repr

/-- The English `errorNoRecipes` message thrown when the filtered list is
empty (`translations.ts`). -/
def errorNoRecipes : String :=
  "We couldn\x27t whip up any recipes with what you have. Try adding more ingredients!"

/-- Model of `handleRecipeGeneration` after ingredient confirmation: a failed
or unparsable text-generation call, and likewise an empty filtered list, both
land in the error state (the empty filter via `throw new Error(t(\x27errorNoRecipes\x27))`);
otherwise the filtered list is published and the image loop runs. -/
def handleRecipeGeneration (gen : String → String → Option String)
    (pantry : List AvailableIngredient)
    (textResult : Except String (List Recipe)) : GenOutcome × List PipeEvent :=
  match textResult with
  | .error msg => (.errorState msg, [])
  | .ok rs =>
    let filtered := filterRecipesApp pantry rs
    if filtered.isEmpty then (.errorState errorNoRecipes, [])
    else
      let run := runImagePipeline gen filtered
      (.results run.1, PipeEvent.publish filtered :: run.2)

/-- Model of `handleGenerateMoreRecipes`: a text-generation failure or an
empty filtered list leaves the existing list unchanged (no error state);
otherwise the new recipes are appended and imaged with the existing list as
the already-done head. -/
def handleGenerateMoreRecipes (gen : String → String → Option String)
    (pantry : List AvailableIngredient) (existing : List Recipe)
    (textResult : Except String (List Recipe)) : List Recipe :=
  match textResult with
  | .error _ => existing
  | .ok rs =>
    let filtered := filterRecipesApp pantry rs
    if filtered.isEmpty then existing
    else (imageLoopAux gen existing filtered).1

/-- Whether a pipeline event is the fixed delay. -/
def isDelayEvent : PipeEvent → Bool
  | .delay _ => true
  | .publish _ => false

/-- Whether a pipeline event is a state publication. -/
def isPublishEvent : PipeEvent → Bool
  | .publish _ => true
  | .delay _ => false

/-- The events of the image attempt for index `i` of `todo`, with `done` the
recipes already finished before this loop started (empty for a fresh batch,
the existing recipes for generate-more): on success, one publication of the
current partial list — `done`, then the first `i + 1` of `todo` carrying
their generated images, then the later ones untouched — and, after every
attempt except the last, the fixed 1500 ms delay. -/
def attemptBlockFrom (gen : String → String → Option String)
    (done todo : List Recipe) (i : ℕ) : List PipeEvent :=
  match todo[i]? with
  | none => []
  | some r =>
    (match gen r.recipeName r.description with
      | some _ =>
        [PipeEvent.publish
          (done ++ (todo.take (i + 1)).map (applyImage gen) ++ todo.drop (i + 1))]
      | none => []) ++
    (if i + 1 < todo.length then [PipeEvent.delay 1500] else [])

/-- The events of the image attempt for index `i` of a fresh batch `rs`: on
success, one publication of the current partial list — the first `i + 1`
recipes carrying their generated images, the later ones untouched — and,
after every attempt except the last, the fixed 1500 ms delay. -/
def attemptBlock (gen : String → String → Option String)
    (rs : List Recipe) (i : ℕ) : List PipeEvent :=
  match rs[i]? with
  | none => []
  | some r =>
    (match gen r.recipeName r.description with
      | some _ =>
        [PipeEvent.publish ((rs.take (i + 1)).map (applyImage gen) ++ rs.drop (i + 1))]
      | none => []) ++
    (if i + 1 < rs.length then [PipeEvent.delay 1500] else [])

/-! ### Spec-side definitions, written from the specification text, for
refinement comparisons against the code-derived definitions above. -/

/-- Spec-side keep rule (section 4.2 step 2 as the claim reads it), written
from the specification text for refinement comparison against
`filterRecipesApp`: a candidate recipe is kept only if every ingredient is a
pantry staple or matches a pantry entry by the section 4.1 normalized-name
and unit rule. -/
def specKept (pantry : List AvailableIngredient) (r : Recipe) : Bool :=
  r.ingredients.all fun ing =>
    isPantryStaple ing.name ||
    pantry.any fun a =>
      (normalizeString a.name == normalizeString ing.name) && unitsMatch a ing

/-- Spec-style per-ingredient shopping-list rule, amended to the code:
non-staple ingredients only; under strict normalized-unit equality the
pantry quantity is available; with no name match nothing is available; a
name match with a different normalized unit emits nothing. -/
def shoppingSpec (available : List AvailableIngredient) (s : ℕ) (ing : Ingredient) :
    Option ShoppingListItem :=
  if isPantryStaple ing.name then none
  else
    match findAvail available ing with
    | some a =>
      if normalizeString a.unit == normalizeString ing.unit then
        if a.quantity < ing.quantity * s then
          some { name := ing.name, amountToBuy := round2 (ing.quantity * s - a.quantity),
                 unit := ing.unit }
        else none
      else none
    | none =>
      if 0 < ing.quantity * s then
        some { name := ing.name, amountToBuy := round2 (ing.quantity * s), unit := ing.unit }
      else none

/-- The per-serving feasibility bound each non-staple, pantry-matched
ingredient contributes in `calculateMaxServings`. -/
def boundsOf (available : List AvailableIngredient) (ings : List Ingredient) : List ℤ :=
  ings.filterMap fun ing =>
    if isPantryStaple ing.name then none
    else
      match findAvail available ing with
      | some a => some (Int.floor (a.quantity / ing.quantity))
      | none => none

/-- Minimum of an integer list (`none` on the empty list). -/
def minList : List ℤ → Option ℤ
  | [] => none
  | x :: rest =>
    match minList rest with
    | none => some x
    | some m => some (min x m)

/-- Combination of an accumulator value and an optional list minimum, as
produced by the `calculateMaxServings` loop (`none` = `Infinity`;
20 is the all-staples fallback ceiling). -/
def accMinResult (acc : Option ℤ) (mb : Option ℤ) : ℤ :=
  match acc, mb with
  | none, none => 20
  | none, some m => max 0 m
  | some m, none => max 0 m
  | some m, some mm => max 0 (min m mm)

/-! ### Concrete fixtures used by witnesses and counterexamples -/

/-- Fixture: a pantry holding six eggs (the worked example of the spec). -/
def eggPantry : List AvailableIngredient := [⟨"egg", 6, "unit"⟩]

/-- Fixture: a recipe needing two eggs per serving. -/
def eggRecipe : Recipe := ⟨"Omelette", "d", [⟨"eggs", 2, "unit"⟩], ["cook"], none, none⟩

/-- Fixture: the egg recipe with the per-serving quantity raised to four. -/
def eggRecipe4 : Recipe := ⟨"Omelette", "d", [⟨"eggs", 4, "unit"⟩], ["cook"], none, none⟩

/-- Fixture: a recipe needing milk, used against an empty pantry. -/
def milkRecipe : Recipe := ⟨"Milky", "d", [⟨"milk", 1, "l"⟩], ["pour"], none, none⟩

/-- Fixture: a recipe needing one litre of flour. -/
def flourRecipe : Recipe := ⟨"Bread", "d", [⟨"flour", 1, "l"⟩], ["bake"], none, none⟩

/-- Fixture: a pantry entry named flour measured in grams (unit-incompatible
with the flour recipe). -/
def flourPantry : List AvailableIngredient := [⟨"flour", 0, "g"⟩]

/-- Fixture: a recipe whose milk ingredient is measured in grams. -/
def milkGRecipe : Recipe := ⟨"MilkG", "d", [⟨"milk", 1, "g"⟩], ["stir"], none, none⟩

/-- Fixture: a pantry with milk measured in litres. -/
def milkLPantry : List AvailableIngredient := [⟨"milk", 1, "l"⟩]

/-- Fixture: a recipe made only of staple ingredients. -/
def stapleRecipe : Recipe :=
  ⟨"Seasoned Water", "d", [⟨"salt", 1, "g"⟩, ⟨"water", 2, "l"⟩], [], none, none⟩

/-- Fixture: an egg ingredient with per-serving quantity zero and a unit
incompatible with the pantry entry. -/
def zeroQtyRecipe : Recipe := ⟨"Zero", "d", [⟨"eggs", 0, "l"⟩], [], none, none⟩

/-- Fixture: the zero-quantity recipe with that ingredient removed. -/
def noIngRecipe : Recipe := ⟨"Zero", "d", [], [], none, none⟩

/-- Fixture: an image generator that always fails. -/
def genFail : String → String → Option String := fun _ _ => none

/-- Fixture: an image generator that succeeds exactly on recipe name "A". -/
def genOnlyA : String → String → Option String :=
  fun n _ => if n = "A" then some "data:image/a" else none

/-- Fixture: a first bare recipe. -/
def recA : Recipe := ⟨"A", "a", [], [], none, none⟩

/-- Fixture: a second bare recipe. -/
def recB : Recipe := ⟨"B", "b", [], [], none, none⟩

/-! ### Lemmas about the `calculateMaxServings` loop -/

theorem maxServingsLoop_nil_none (p : List AvailableIngredient) :
    maxServingsLoop p [] none = 20 := rfl

theorem maxServingsLoop_nil_some (p : List AvailableIngredient) (m : ℤ) :
    maxServingsLoop p [] (some m) = max 0 m := rfl

theorem maxServingsLoop_cons (p : List AvailableIngredient) (ing : Ingredient)
    (rest : List Ingredient) (acc : Option ℤ) :
    maxServingsLoop p (ing :: rest) acc =
      match isPantryStaple ing.name, findAvail p ing with
      | true, _ => maxServingsLoop p rest acc
      | false, none => 0
      | false, some a =>
        if 0 < ing.quantity then
          if unitsMatch a ing then
            maxServingsLoop p rest
              (combineBound acc (Int.floor (a.quantity / ing.quantity)))
          else 0
        else maxServingsLoop p rest acc := by
  cases acc <;> rfl

theorem maxServingsLoop_cons_staple (p : List AvailableIngredient) (ing : Ingredient)
    (rest : List Ingredient) (acc : Option ℤ) (h : isPantryStaple ing.name = true) :
    maxServingsLoop p (ing :: rest) acc = maxServingsLoop p rest acc := by
  rw [maxServingsLoop_cons, h]

theorem maxServingsLoop_cons_absent (p : List AvailableIngredient) (ing : Ingredient)
    (rest : List Ingredient) (acc : Option ℤ) (h : isPantryStaple ing.name = false)
    (hfind : findAvail p ing = none) :
    maxServingsLoop p (ing :: rest) acc = 0 := by
  rw [maxServingsLoop_cons, h, hfind]

theorem maxServingsLoop_cons_found (p : List AvailableIngredient) (ing : Ingredient)
    (rest : List Ingredient) (acc : Option ℤ) (a : AvailableIngredient)
    (h : isPantryStaple ing.name = false) (hfind : findAvail p ing = some a) :
    maxServingsLoop p (ing :: rest) acc =
      if 0 < ing.quantity then
        if unitsMatch a ing then
          maxServingsLoop p rest (combineBound acc (Int.floor (a.quantity / ing.quantity)))
        else 0
      else maxServingsLoop p rest acc := by
  rw [maxServingsLoop_cons, h, hfind]

/-- An ingredient that forces the loop to return 0: non-staple, and either
absent from the pantry or present with a positive requirement and an
incompatible unit. -/
def zeroForcing (p : List AvailableIngredient) (ing : Ingredient) : Prop :=
  isPantryStaple ing.name = false ∧
    (findAvail p ing = none ∨
      ∃ a, findAvail p ing = some a ∧ 0 < ing.quantity ∧ unitsMatch a ing = false)

theorem maxServingsLoop_eq_zero (p : List AvailableIngredient) :
    ∀ (ings : List Ingredient) (acc : Option ℤ),
      (∃ ing ∈ ings, zeroForcing p ing) → maxServingsLoop p ings acc = 0 := by
  intro ings
  induction ings with
  | nil => intro acc h; simp at h
  | cons ing rest ih =>
    intro acc h
    rcases h with ⟨w, hw, hbad⟩
    rcases List.mem_cons.mp hw with hwi | hwrest
    · subst hwi
      rcases hbad.2 with hnone | ⟨a, hfind, hq, hum⟩
      · exact maxServingsLoop_cons_absent p w rest acc hbad.1 hnone
      · rw [maxServingsLoop_cons_found p w rest acc a hbad.1 hfind, if_pos hq]
        simp [hum]
    · cases hst : isPantryStaple ing.name with
      | true =>
        rw [maxServingsLoop_cons_staple p ing rest acc hst]
        exact ih acc ⟨w, hwrest, hbad⟩
      | false =>
        cases hfind : findAvail p ing with
        | none => exact maxServingsLoop_cons_absent p ing rest acc hst hfind
        | some a =>
          rw [maxServingsLoop_cons_found p ing rest acc a hst hfind]
          by_cases hq : 0 < ing.quantity
          · rw [if_pos hq]
            cases hum : unitsMatch a ing with
            | true => rw [if_pos rfl]; exact ih _ ⟨w, hwrest, hbad⟩
            | false => simp
          · rw [if_neg hq]
            exact ih acc ⟨w, hwrest, hbad⟩

/-! ### C5 and C6: zero results of `calculateMaxServings` -/

/-- C5: for every recipe and pantry, if some non-staple recipe ingredient has
no pantry entry with equal normalized name, then `computeMaxServings` returns
exactly 0, regardless of all other ingredients and quantities. -/
theorem c5_absent_nonstaple_gives_zero (r : Recipe) (p : List AvailableIngredient)
    (ing : Ingredient) (hmem : ing ∈ r.ingredients)
    (hst : isPantryStaple ing.name = false)
    (habs : ∀ a ∈ p, normalizeString a.name ≠ normalizeString ing.name) :
    calculateMaxServings r p = 0 := by
  apply maxServingsLoop_eq_zero
  refine ⟨ing, hmem, hst, Or.inl ?_⟩
  rw [findAvail, List.find?_eq_none]
  intro a ha
  simp only [beq_iff_eq]
  exact habs a ha

/-- Witness for C5 at a concrete input: a milk recipe against the empty pantry. -/
theorem c5_absent_nonstaple_gives_zero_witness : calculateMaxServings milkRecipe [] = 0 :=
  c5_absent_nonstaple_gives_zero milkRecipe [] ⟨"milk", 1, "l"⟩
    (by simp [milkRecipe]) (by decide) (by simp)

/-- C6: a non-staple ingredient with positive per-serving quantity whose
pantry lookup succeeds but whose normalized unit neither equals the recipe
unit nor shares the discrete-unit class with it forces `computeMaxServings`
to 0 (the strict variant). -/
theorem c6_incompatible_unit_gives_zero (r : Recipe) (p : List AvailableIngredient)
    (ing : Ingredient) (a : AvailableIngredient)
    (hmem : ing ∈ r.ingredients) (hst : isPantryStaple ing.name = false)
    (hq : 0 < ing.quantity) (hfind : findAvail p ing = some a)
    (hunit : normalizeString a.unit ≠ normalizeString ing.unit)
    (hdisc : ¬(normalizeString a.unit ∈ discreteUnits ∧
               normalizeString ing.unit ∈ discreteUnits)) :
    calculateMaxServings r p = 0 := by
  apply maxServingsLoop_eq_zero
  refine ⟨ing, hmem, hst, Or.inr ⟨a, hfind, hq, ?_⟩⟩
  simp only [unitsMatch, Bool.or_eq_false_iff, Bool.and_eq_false_iff,
    beq_eq_false_iff_ne, ne_eq]
  refine ⟨hunit, ?_⟩
  rcases not_and_or.mp hdisc with h | h
  · exact Or.inl (by simpa [List.elem_iff] using h)
  · exact Or.inr (by simpa [List.elem_iff] using h)

/-- Witness for C6 at a concrete input: flour in litres against a pantry
entry in grams. -/
theorem c6_incompatible_unit_gives_zero_witness :
    calculateMaxServings flourRecipe flourPantry = 0 :=
  c6_incompatible_unit_gives_zero flourRecipe flourPantry
    ⟨"flour", 1, "l"⟩ ⟨"flour", 0, "g"⟩
    (by simp [flourRecipe]) (by decide) (by norm_num) (by decide)
    (by decide) (by decide)

/-! ### Accumulator lemmas for monotonicity and bounds -/

theorem maxServingsLoop_nonneg (p : List AvailableIngredient) :
    ∀ (ings : List Ingredient) (acc : Option ℤ), 0 ≤ maxServingsLoop p ings acc := by
  intro ings
  induction ings with
  | nil =>
    intro acc
    cases acc with
    | none => rw [maxServingsLoop_nil_none]; norm_num
    | some m => rw [maxServingsLoop_nil_some]; exact le_max_left 0 m
  | cons ing rest ih =>
    intro acc
    cases hst : isPantryStaple ing.name with
    | true => rw [maxServingsLoop_cons_staple p ing rest acc hst]; exact ih acc
    | false =>
      cases hfind : findAvail p ing with
      | none => rw [maxServingsLoop_cons_absent p ing rest acc hst hfind]
      | some a =>
        rw [maxServingsLoop_cons_found p ing rest acc a hst hfind]
        by_cases hq : 0 < ing.quantity
        · rw [if_pos hq]
          cases hum : unitsMatch a ing with
          | true => rw [if_pos rfl]; exact ih _
          | false => simp
        · rw [if_neg hq]; exact ih acc

theorem maxServingsLoop_le_acc (p : List AvailableIngredient) :
    ∀ (ings : List Ingredient) (m : ℤ), maxServingsLoop p ings (some m) ≤ max 0 m := by
  intro ings
  induction ings with
  | nil => intro m; rw [maxServingsLoop_nil_some]
  | cons ing rest ih =>
    intro m
    cases hst : isPantryStaple ing.name with
    | true => rw [maxServingsLoop_cons_staple p ing rest _ hst]; exact ih m
    | false =>
      cases hfind : findAvail p ing with
      | none =>
        rw [maxServingsLoop_cons_absent p ing rest _ hst hfind]
        exact le_max_left 0 m
      | some a =>
        rw [maxServingsLoop_cons_found p ing rest _ a hst hfind]
        by_cases hq : 0 < ing.quantity
        · rw [if_pos hq]
          cases hum : unitsMatch a ing with
          | true =>
            rw [if_pos rfl]
            calc maxServingsLoop p rest (combineBound (some m) ⌊a.quantity / ing.quantity⌋)
                ≤ max 0 (min m ⌊a.quantity / ing.quantity⌋) := ih _
              _ ≤ max 0 m := max_le_max le_rfl (min_le_left _ _)
          | false => simp
        · rw [if_neg hq]; exact ih m

theorem maxServingsLoop_mono_acc (p : List AvailableIngredient) :
    ∀ (ings : List Ingredient) (m n : ℤ), m ≤ n →
      maxServingsLoop p ings (some m) ≤ maxServingsLoop p ings (some n) := by
  intro ings
  induction ings with
  | nil =>
    intro m n h
    rw [maxServingsLoop_nil_some, maxServingsLoop_nil_some]
    exact max_le_max le_rfl h
  | cons ing rest ih =>
    intro m n h
    cases hst : isPantryStaple ing.name with
    | true =>
      rw [maxServingsLoop_cons_staple p ing rest _ hst,
        maxServingsLoop_cons_staple p ing rest _ hst]
      exact ih m n h
    | false =>
      cases hfind : findAvail p ing with
      | none =>
        rw [maxServingsLoop_cons_absent p ing rest _ hst hfind,
          maxServingsLoop_cons_absent p ing rest _ hst hfind]
      | some a =>
        rw [maxServingsLoop_cons_found p ing rest _ a hst hfind,
          maxServingsLoop_cons_found p ing rest _ a hst hfind]
        by_cases hq : 0 < ing.quantity
        · rw [if_pos hq, if_pos hq]
          cases hum : unitsMatch a ing with
          | true =>
            rw [if_pos rfl, if_pos rfl]
            exact ih _ _ (min_le_min h le_rfl)
          | false => simp
        · rw [if_neg hq, if_neg hq]; exact ih m n h

/-! ### C8: monotonicity in a single ingredient quantity -/

theorem maxServingsLoop_mono_quantity (p : List AvailableIngredient)
    (l₂ : List Ingredient) (nm u : String) (q q' : ℚ)
    (hq : 0 < q) (hqq' : q ≤ q') :
    ∀ (l₁ : List Ingredient) (acc : Option ℤ),
      maxServingsLoop p (l₁ ++ ⟨nm, q', u⟩ :: l₂) acc ≤
        maxServingsLoop p (l₁ ++ ⟨nm, q, u⟩ :: l₂) acc := by
  have hq' : 0 < q' := lt_of_lt_of_le hq hqq'
  intro l₁
  induction l₁ with
  | nil =>
    intro acc
    simp only [List.nil_append]
    cases hst : isPantryStaple (Ingredient.mk nm q u).name with
    | true =>
      have hst' : isPantryStaple (Ingredient.mk nm q' u).name = true := hst
      rw [maxServingsLoop_cons_staple p (Ingredient.mk nm q u) l₂ acc hst,
        maxServingsLoop_cons_staple p (Ingredient.mk nm q' u) l₂ acc hst']
    | false =>
      have hst' : isPantryStaple (Ingredient.mk nm q' u).name = false := hst
      cases hfind : findAvail p (Ingredient.mk nm q u) with
      | none =>
        have hfind' : findAvail p (Ingredient.mk nm q' u) = none := hfind
        rw [maxServingsLoop_cons_absent p (Ingredient.mk nm q u) l₂ acc hst hfind,
          maxServingsLoop_cons_absent p (Ingredient.mk nm q' u) l₂ acc hst' hfind']
      | some a =>
        have hfind' : findAvail p (Ingredient.mk nm q' u) = some a := hfind
        rw [maxServingsLoop_cons_found p (Ingredient.mk nm q u) l₂ acc a hst hfind,
          maxServingsLoop_cons_found p (Ingredient.mk nm q' u) l₂ acc a hst' hfind']
        rw [if_pos hq, if_pos hq']
        cases hum : unitsMatch a (Ingredient.mk nm q u) with
        | false =>
          have hum' : unitsMatch a (Ingredient.mk nm q' u) = false := hum
          rw [hum']
          simp [hum]
        | true =>
          have hum' : unitsMatch a (Ingredient.mk nm q' u) = true := hum
          rw [hum', if_pos rfl, if_pos rfl]
          rcases le_or_lt 0 a.quantity with hnn | hneg
          · have hfl : Int.floor (a.quantity / q') ≤ Int.floor (a.quantity / q) :=
              Int.floor_le_floor (div_le_div_of_nonneg_left hnn hq hqq')
            cases acc with
            | none => exact maxServingsLoop_mono_acc p l₂ _ _ hfl
            | some m => exact maxServingsLoop_mono_acc p l₂ _ _ (min_le_min le_rfl hfl)
          · have hneg' : Int.floor (a.quantity / q') < 0 := by
              rw [Int.floor_lt]
              push_cast
              exact div_neg_of_neg_of_pos hneg hq'
            have hle : maxServingsLoop p l₂ (combineBound acc ⌊a.quantity / q'⌋) ≤ 0 := by
              cases acc with
              | none =>
                calc maxServingsLoop p l₂ (combineBound none ⌊a.quantity / q'⌋)
                    ≤ max 0 ⌊a.quantity / q'⌋ := maxServingsLoop_le_acc p l₂ _
                  _ = 0 := max_eq_left hneg'.le
              | some m =>
                calc maxServingsLoop p l₂ (combineBound (some m) ⌊a.quantity / q'⌋)
                    ≤ max 0 (min m ⌊a.quantity / q'⌋) := maxServingsLoop_le_acc p l₂ _
                  _ ≤ max 0 ⌊a.quantity / q'⌋ :=
                      max_le_max le_rfl (min_le_right _ _)
                  _ = 0 := max_eq_left hneg'.le
            exact le_trans hle (maxServingsLoop_nonneg p l₂ _)
  | cons x xs ih =>
    intro acc
    simp only [List.cons_append]
    cases hst : isPantryStaple x.name with
    | true =>
      rw [maxServingsLoop_cons_staple p x _ acc hst,
        maxServingsLoop_cons_staple p x _ acc hst]
      exact ih acc
    | false =>
      cases hfind : findAvail p x with
      | none =>
        rw [maxServingsLoop_cons_absent p x _ acc hst hfind,
          maxServingsLoop_cons_absent p x _ acc hst hfind]
      | some a =>
        rw [maxServingsLoop_cons_found p x _ acc a hst hfind,
          maxServingsLoop_cons_found p x _ acc a hst hfind]
        by_cases hq0 : 0 < x.quantity
        · rw [if_pos hq0, if_pos hq0]
          cases hum : unitsMatch a x with
          | true => rw [if_pos rfl, if_pos rfl]; exact ih _
          | false => simp
        · rw [if_neg hq0, if_neg hq0]; exact ih acc

/-- C8: `computeMaxServings` is monotonically non-increasing as one recipe
ingredient's per-serving quantity increases (within the data-model domain of
positive quantities), with the pantry and all other ingredients held fixed. -/
theorem c8_mono_in_quantity (r r' : Recipe) (p : List AvailableIngredient)
    (l₁ l₂ : List Ingredient) (nm u : String) (q q' : ℚ)
    (hr : r.ingredients = l₁ ++ ⟨nm, q, u⟩ :: l₂)
    (hr' : r'.ingredients = l₁ ++ ⟨nm, q', u⟩ :: l₂)
    (hq : 0 < q) (hqq' : q ≤ q') :
    calculateMaxServings r' p ≤ calculateMaxServings r p := by
  rw [calculateMaxServings, calculateMaxServings, hr, hr']
  exact maxServingsLoop_mono_quantity p l₂ nm u q q' hq hqq' l₁ none

/-- Witness for C8 at a concrete input: raising the egg requirement from two
to four per serving cannot increase the serving bound. -/
theorem c8_mono_in_quantity_witness :
    calculateMaxServings eggRecipe4 eggPantry ≤ calculateMaxServings eggRecipe eggPantry :=
  c8_mono_in_quantity eggRecipe eggRecipe4 eggPantry [] [] "eggs" "unit" 2 4
    rfl rfl (by norm_num) (by norm_num)

/-! ### C10: nonpositive-quantity ingredients with a name match are skipped -/

theorem maxServingsLoop_skip_nonpos (p : List AvailableIngredient)
    (l₂ : List Ingredient) (ing : Ingredient) (a : AvailableIngredient)
    (hfind : findAvail p ing = some a) (hq : ing.quantity ≤ 0) :
    ∀ (l₁ : List Ingredient) (acc : Option ℤ),
      maxServingsLoop p (l₁ ++ ing :: l₂) acc = maxServingsLoop p (l₁ ++ l₂) acc := by
  intro l₁
  induction l₁ with
  | nil =>
    intro acc
    simp only [List.nil_append]
    cases hst : isPantryStaple ing.name with
    | true => exact maxServingsLoop_cons_staple p ing l₂ acc hst
    | false =>
      rw [maxServingsLoop_cons_found p ing l₂ acc a hst hfind,
        if_neg (not_lt.mpr hq)]
  | cons x xs ih =>
    intro acc
    simp only [List.cons_append]
    cases hst : isPantryStaple x.name with
    | true =>
      rw [maxServingsLoop_cons_staple p x _ acc hst,
        maxServingsLoop_cons_staple p x _ acc hst]
      exact ih acc
    | false =>
      cases hfindx : findAvail p x with
      | none =>
        rw [maxServingsLoop_cons_absent p x _ acc hst hfindx,
          maxServingsLoop_cons_absent p x _ acc hst hfindx]
      | some b =>
        rw [maxServingsLoop_cons_found p x _ acc b hst hfindx,
          maxServingsLoop_cons_found p x _ acc b hst hfindx]
        by_cases hq0 : 0 < x.quantity
        · rw [if_pos hq0, if_pos hq0]
          cases hum : unitsMatch b x with
          | true => rw [if_pos rfl, if_pos rfl]; exact ih _
          | false => simp
        · rw [if_neg hq0, if_neg hq0]; exact ih acc

/-- C10 (implicit): a non-staple recipe ingredient with a name-matched pantry
entry and per-serving quantity at most 0 is ignored entirely by
`calculateMaxServings` — removing it leaves the result unchanged, so it never
forces the result to 0 even when its unit is incompatible. -/
theorem c10_nonpos_quantity_ignored (r r' : Recipe) (p : List AvailableIngredient)
    (l₁ l₂ : List Ingredient) (ing : Ingredient) (a : AvailableIngredient)
    (hr : r.ingredients = l₁ ++ ing :: l₂) (hr' : r'.ingredients = l₁ ++ l₂)
    (hst : isPantryStaple ing.name = false)
    (hfind : findAvail p ing = some a) (hq : ing.quantity ≤ 0) :
    calculateMaxServings r p = calculateMaxServings r' p := by
  rw [calculateMaxServings, calculateMaxServings, hr, hr']
  exact maxServingsLoop_skip_nonpos p l₂ ing a hfind hq l₁ none

/-- Witness for C10 at a concrete input: a zero-quantity egg ingredient in
litres (unit-incompatible with the pantry entry) does not change the result
relative to the recipe without it; in particular it does not force 0. -/
theorem c10_nonpos_quantity_ignored_witness :
    calculateMaxServings zeroQtyRecipe eggPantry = calculateMaxServings noIngRecipe eggPantry ∧
      calculateMaxServings noIngRecipe eggPantry = 20 :=
  ⟨c10_nonpos_quantity_ignored zeroQtyRecipe noIngRecipe eggPantry [] []
      ⟨"eggs", 0, "l"⟩ ⟨"egg", 6, "unit"⟩ rfl rfl (by decide) rfl (by norm_num),
    rfl⟩

/-! ### C7: all-staples fallback and minimum formula -/

theorem maxServingsLoop_eq_accMin (p : List AvailableIngredient) :
    ∀ (ings : List Ingredient),
      (∀ ing ∈ ings, isPantryStaple ing.name = false →
        0 < ing.quantity ∧ ∃ a, findAvail p ing = some a ∧ unitsMatch a ing = true) →
      ∀ acc, maxServingsLoop p ings acc = accMinResult acc (minList (boundsOf p ings)) := by
  intro ings
  induction ings with
  | nil =>
    intro _ acc
    cases acc with
    | none => rfl
    | some m => rfl
  | cons ing rest ih =>
    intro hcomp acc
    have hrest := fun x hx => hcomp x (List.mem_cons_of_mem ing hx)
    cases hst : isPantryStaple ing.name with
    | true =>
      rw [maxServingsLoop_cons_staple p ing rest acc hst]
      have hbounds : boundsOf p (ing :: rest) = boundsOf p rest := by
        simp [boundsOf, List.filterMap_cons, hst]
      rw [hbounds]
      exact ih hrest acc
    | false =>
      rcases hcomp ing (List.mem_cons_self ing rest) hst with ⟨hq, a, hfind, hum⟩
      rw [maxServingsLoop_cons_found p ing rest acc a hst hfind, if_pos hq, hum,
        if_pos rfl]
      have hbounds : boundsOf p (ing :: rest) =
          Int.floor (a.quantity / ing.quantity) :: boundsOf p rest := by
        simp [boundsOf, List.filterMap_cons, hst, hfind]
      rw [hbounds, ih hrest (combineBound acc (Int.floor (a.quantity / ing.quantity)))]
      cases acc with
      | none =>
        cases hmin : minList (boundsOf p rest) with
        | none => simp [accMinResult, combineBound, minList, hmin]
        | some mm => simp [accMinResult, combineBound, minList, hmin]
      | some m =>
        cases hmin : minList (boundsOf p rest) with
        | none => simp [accMinResult, combineBound, minList, hmin]
        | some mm =>
          simp only [accMinResult, combineBound, minList, hmin]
          rw [min_assoc]

/-- C7: a recipe whose every ingredient is a staple gets the fixed fallback
ceiling 20 regardless of the pantry; otherwise, when every non-staple
ingredient has a positive quantity and a unit-compatible pantry match,
`computeMaxServings` is the minimum over the non-staple ingredients of
`floor(pantryQuantity / perServingQuantity)`, floored at 0. -/
theorem c7_fallback_and_minimum (r : Recipe) (p : List AvailableIngredient) :
    ((∀ ing ∈ r.ingredients, isPantryStaple ing.name = true) →
      calculateMaxServings r p = 20) ∧
    ((∀ ing ∈ r.ingredients, isPantryStaple ing.name = false →
        0 < ing.quantity ∧ ∃ a, findAvail p ing = some a ∧ unitsMatch a ing = true) →
      ∀ m, minList (boundsOf p r.ingredients) = some m →
        calculateMaxServings r p = max 0 m) := by
  constructor
  · intro hall
    have hcomp : ∀ ing ∈ r.ingredients, isPantryStaple ing.name = false →
        0 < ing.quantity ∧ ∃ a, findAvail p ing = some a ∧ unitsMatch a ing = true := by
      intro ing hm hf
      rw [hall ing hm] at hf
      exact absurd hf (by simp)
    have hbounds : boundsOf p r.ingredients = [] := by
      rw [boundsOf, List.filterMap_eq_nil]
      intro ing hm
      rw [if_pos (hall ing hm)]
    rw [calculateMaxServings, maxServingsLoop_eq_accMin p r.ingredients hcomp none,
      hbounds]
    rfl
  · intro hcomp m hmin
    rw [calculateMaxServings, maxServingsLoop_eq_accMin p r.ingredients hcomp none,
      hmin]
    rfl

/-- Witness for C7 at concrete inputs: the all-staples recipe yields 20 on
any pantry, and the egg recipe yields the floored minimum bound 3. -/
theorem c7_fallback_and_minimum_witness :
    calculateMaxServings stapleRecipe eggPantry = 20 ∧
      calculateMaxServings eggRecipe eggPantry = max 0 3 :=
  ⟨(c7_fallback_and_minimum stapleRecipe eggPantry).1 (by decide),
    (c7_fallback_and_minimum eggRecipe eggPantry).2
      (by
        intro ing hm hf
        simp only [eggRecipe] at hm
        rcases List.mem_singleton.mp hm with rfl
        exact ⟨by norm_num, ⟨"egg", 6, "unit"⟩, rfl, rfl⟩)
      3
      (by
        simp only [boundsOf, eggRecipe, eggPantry, minList, List.filterMap_cons,
          List.filterMap_nil]
        norm_num [findAvail, isPantryStaple, normalizeString, strToLower, strContains,
          charsHasSubstr, charsLeads, pantryStaples, minList])⟩

/-! ### C9 and C3: the sequential image loop -/

theorem imageLoopAux_fst (gen : String → String → Option String) :
    ∀ (todo done : List Recipe),
      (imageLoopAux gen done todo).1 = done ++ todo.map (applyImage gen) := by
  intro todo
  induction todo with
  | nil => intro done; simp [imageLoopAux]
  | cons r rest ih =>
    intro done
    simp only [imageLoopAux]
    rw [ih]
    simp

theorem imageLoopAux_counts (gen : String → String → Option String) :
    ∀ (todo done : List Recipe),
      (imageLoopAux gen done todo).2.countP isDelayEvent = todo.length - 1 ∧
      (imageLoopAux gen done todo).2.countP isPublishEvent =
        (todo.filter fun r => (gen r.recipeName r.description).isSome).length := by
  intro todo
  induction todo with
  | nil => intro done; simp [imageLoopAux]
  | cons r rest ih =>
    intro done
    simp only [imageLoopAux, List.countP_append]
    rcases ih (done ++ [applyImage gen r]) with ⟨ihd, ihp⟩
    constructor
    · rw [ihd]
      have hevs : ∀ rs : List Recipe,
          (match gen r.recipeName r.description with
            | some _ => [PipeEvent.publish rs]
            | none => ([] : List PipeEvent)).countP isDelayEvent = 0 := by
        intro rs
        cases gen r.recipeName r.description <;> simp [isDelayEvent]
      cases rest with
      | nil => cases hgen : gen r.recipeName r.description <;> simp [hgen, isDelayEvent]
      | cons x xs =>
        cases hgen : gen r.recipeName r.description <;>
          simp [hgen, isDelayEvent, List.countP_cons, Nat.succ_sub_one] <;> omega
    · rw [ihp]
      cases hgen : gen r.recipeName r.description <;>
        cases rest <;>
          simp [hgen, isPublishEvent, List.filter_cons, List.countP_cons] <;> omega

/-- C9: if the image call fails for some recipes of the filtered batch, the
final list keeps its length; a failed recipe is returned unchanged (hence
still without an image), and a successful one is returned with exactly its
`imageUrl` field set. -/
theorem c9_image_failure_isolated (gen : String → String → Option String)
    (rs : List Recipe) (h : ∀ r ∈ rs, r.imageUrl = none) :
    (runImagePipeline gen rs).1.length = rs.length ∧
    ∀ (k : ℕ) (r : Recipe), rs[k]? = some r →
      ((gen r.recipeName r.description = none →
          (runImagePipeline gen rs).1[k]? = some r ∧ r.imageUrl = none) ∧
       (∀ url, gen r.recipeName r.description = some url →
          (runImagePipeline gen rs).1[k]? =
            some { r with imageUrl := some url })) := by
  have hfst : (runImagePipeline gen rs).1 = rs.map (applyImage gen) := by
    rw [runImagePipeline, imageLoopAux_fst gen rs []]
    simp
  constructor
  · rw [hfst]; simp
  · intro k r hk
    have hmem : r ∈ rs := List.getElem?_mem hk
    constructor
    · intro hgen
      refine ⟨?_, h r hmem⟩
      rw [hfst, List.getElem?_map, hk]
      simp [applyImage, hgen]
    · intro url hgen
      rw [hfst, List.getElem?_map, hk]
      simp [applyImage, hgen]

/-- Witness for C9 at a concrete input: of two bare recipes, only the first
gets an image; the second is untouched and the length stays two. -/
theorem c9_image_failure_isolated_witness :
    (runImagePipeline genOnlyA [recA, recB]).1.length = 2 ∧
      (runImagePipeline genOnlyA [recA, recB]).1[0]? =
        some { recA with imageUrl := some "data:image/a" } ∧
      (runImagePipeline genOnlyA [recA, recB]).1[1]? = some recB := by
  have h := c9_image_failure_isolated genOnlyA [recA, recB]
    (by
      intro r hr
      simp only [List.mem_cons, List.not_mem_nil, or_false] at hr
      rcases hr with rfl | rfl <;> rfl)
  refine ⟨h.1, ?_, ?_⟩
  · exact (h.2 0 recA rfl).2 "data:image/a" rfl
  · exact ((h.2 1 recB rfl).1 rfl).1

/-- Counterexample to C3: with two recipes and an always-failing image
generator, the loop's observable trace is a single delay — no publication
follows the first (non-final) attempt, contrary to the claim that the partial
list is published after every attempt. -/
theorem c3_counterexample :
    (runImagePipeline genFail [recA, recB]).2 = [PipeEvent.delay 1500] ∧
      (runImagePipeline genFail [recA, recB]).2.countP isPublishEvent = 0 := by
  constructor <;> rfl

theorem attemptBlockFrom_nil_done (gen : String → String → Option String)
    (rs : List Recipe) (i : ℕ) :
    attemptBlockFrom gen [] rs i = attemptBlock gen rs i := by
  cases h : rs[i]? with
  | none => simp [attemptBlockFrom, attemptBlock, h]
  | some r =>
    cases hg : gen r.recipeName r.description <;>
      simp [attemptBlockFrom, attemptBlock, h, hg]

theorem imageLoopAux_trace (gen : String → String → Option String) :
    ∀ (todo done : List Recipe),
      (imageLoopAux gen done todo).2 =
        ((List.range todo.length).map (attemptBlockFrom gen done todo)).flatten := by
  intro todo
  induction todo with
  | nil => intro done; simp [imageLoopAux]
  | cons r rest ih =>
    intro done
    have hshift : ∀ i : ℕ,
        attemptBlockFrom gen done (r :: rest) (i + 1) =
          attemptBlockFrom gen (done ++ [applyImage gen r]) rest i := by
      intro i
      cases h : rest[i]? with
      | none => simp [attemptBlockFrom, h]
      | some x =>
        cases hg : gen x.recipeName x.description <;>
          simp [attemptBlockFrom, h, hg, List.take_succ_cons, List.drop_succ_cons,
            Nat.succ_lt_succ_iff]
    have hzero :
        attemptBlockFrom gen done (r :: rest) 0 =
          (match gen r.recipeName r.description with
            | some _ => [PipeEvent.publish (done ++ applyImage gen r :: rest)]
            | none => ([] : List PipeEvent)) ++
          (if rest.isEmpty then [] else [PipeEvent.delay 1500]) := by
      cases hg : gen r.recipeName r.description <;> cases rest <;>
        simp [attemptBlockFrom, hg]
    have hfun : (fun i => attemptBlockFrom gen done (r :: rest) (Nat.succ i)) =
        attemptBlockFrom gen (done ++ [applyImage gen r]) rest := by
      funext i
      exact hshift i
    simp only [imageLoopAux]
    rw [ih (done ++ [applyImage gen r]), List.length_cons, List.range_succ_eq_map,
      List.map_cons, List.flatten_cons, hzero, List.map_map]
    simp only [Function.comp_def]
    rw [hfun]

/-- C3 (amended): the observable trace of the image loop is exactly, in
index order, one event block per attempt: a successful attempt `i` first
publishes the current partial recipe list — the first `i + 1` recipes
carrying the images generated so far, the later recipes untouched — also
when it is the last attempt, while a failed attempt publishes nothing; then
every attempt except the last, success or failure, is followed by the fixed
1.5 second delay before the next attempt's events. -/
theorem c3_amended_trace_structure (gen : String → String → Option String)
    (rs : List Recipe) :
    (runImagePipeline gen rs).2 =
      ((List.range rs.length).map (attemptBlock gen rs)).flatten := by
  rw [runImagePipeline, imageLoopAux_trace gen rs []]
  have hfun : attemptBlockFrom gen [] rs = attemptBlock gen rs :=
    funext (attemptBlockFrom_nil_done gen rs)
  rw [hfun]

/-! ### C2: the defensive recipe filter -/

/-- Counterexample to C2: a candidate whose milk ingredient is measured in
grams against a pantry stocking milk in litres is kept by the code's filter
(name-only matching), although the section 4.1 normalized-name/unit rule of
the claim rejects it. -/
theorem c2_counterexample :
    filterRecipesApp milkLPantry [milkGRecipe] = [milkGRecipe] ∧
      specKept milkLPantry milkGRecipe = false := by
  constructor <;> rfl

/-- C2 (amended): the filtered list is a sublist (subset in order) of the
candidates, and a candidate is kept if and only if each of its ingredients
either contains one of the four staple words salt, pepper, oil, water in its
normalized name, or agrees in normalized name with some pantry entry — units
and quantities are not consulted. -/
theorem c2_amended_filter_characterization (p : List AvailableIngredient)
    (rs : List Recipe) :
    (filterRecipesApp p rs).Sublist rs ∧
    ∀ r, r ∈ filterRecipesApp p rs ↔ r ∈ rs ∧
      ∀ ing ∈ r.ingredients,
        (∃ st ∈ appPantryStaples, strContains (normalizeString ing.name) st = true) ∨
        ∃ a ∈ p, normalizeString a.name = normalizeString ing.name := by
  constructor
  · exact List.filter_sublist rs
  · intro r
    rw [filterRecipesApp, List.mem_filter]
    constructor
    · rintro ⟨hmem, hall⟩
      refine ⟨hmem, ?_⟩
      intro ing hing
      have := (List.all_eq_true.mp hall) ing hing
      rcases Bool.or_eq_true_iff.mp this with h | h
      · rcases List.any_eq_true.mp h with ⟨st, hst, hc⟩
        exact Or.inl ⟨st, hst, hc⟩
      · rcases List.any_eq_true.mp h with ⟨a, ha, hb⟩
        exact Or.inr ⟨a, ha, beq_iff_eq.mp hb⟩
    · rintro ⟨hmem, hall⟩
      refine ⟨hmem, ?_⟩
      rw [List.all_eq_true]
      intro ing hing
      rw [appIngredientOk, Bool.or_eq_true_iff]
      rcases hall ing hing with ⟨st, hst, hc⟩ | ⟨a, ha, hb⟩
      · exact Or.inl (List.any_eq_true.mpr ⟨st, hst, hc⟩)
      · exact Or.inr (List.any_eq_true.mpr ⟨a, ha, beq_iff_eq.mpr hb⟩)

/-- Witness for C2 (amended) at a concrete input: the kept milk recipe is a
sublist member with name-only matching. -/
theorem c2_amended_filter_characterization_witness :
    (filterRecipesApp milkLPantry [milkGRecipe]).Sublist [milkGRecipe] :=
  (c2_amended_filter_characterization milkLPantry [milkGRecipe]).1

/-! ### C4: the empty-filter outcome -/

/-- Counterexample to C4: a successful text generation whose single candidate
is filtered out lands in the same error state (constructor) as a transport
failure — the empty-filter condition is raised as an exception carrying the
`errorNoRecipes` message, not reported as a distinct non-exception result. -/
theorem c4_counterexample :
    handleRecipeGeneration genFail [] (Except.ok [milkGRecipe]) =
      (GenOutcome.errorState errorNoRecipes, []) ∧
    handleRecipeGeneration genFail [] (Except.error "network failure") =
      (GenOutcome.errorState "network failure", []) := by
  constructor <;> rfl

/-- C4 (amended): when text generation succeeds but the filter leaves an
empty list, the initial-generation handler raises the dedicated
`errorNoRecipes` message through the same error state used for transport and
parse failures (distinct only in message text), while the generate-more
handler treats the same condition as a silent no-op, leaving the existing
recipe list unchanged. -/
theorem c4_amended_empty_filter (gen : String → String → Option String)
    (p : List AvailableIngredient) (rs existing : List Recipe)
    (h : filterRecipesApp p rs = []) :
    handleRecipeGeneration gen p (Except.ok rs) =
      (GenOutcome.errorState errorNoRecipes, []) ∧
    handleGenerateMoreRecipes gen p existing (Except.ok rs) = existing := by
  constructor
  · rw [handleRecipeGeneration, h]
    rfl
  · rw [handleGenerateMoreRecipes, h]
    rfl

/-- Witness for C4 (amended) at a concrete input: the milk-in-grams candidate
against an empty pantry filters to nothing. -/
theorem c4_amended_empty_filter_witness :
    handleRecipeGeneration genFail [] (Except.ok [milkGRecipe]) =
      (GenOutcome.errorState errorNoRecipes, []) ∧
    handleGenerateMoreRecipes genFail [] [recA] (Except.ok [milkGRecipe]) = [recA] :=
  c4_amended_empty_filter genFail [] [milkGRecipe] [recA] rfl

/-! ### C1: the shopping-list computation -/

theorem maxServingsLoop_le_bound (p : List AvailableIngredient)
    (l₂ : List Ingredient) (ing : Ingredient) (a : AvailableIngredient)
    (hst : isPantryStaple ing.name = false) (hfind : findAvail p ing = some a)
    (hq : 0 < ing.quantity) (hum : unitsMatch a ing = true) :
    ∀ (l₁ : List Ingredient) (acc : Option ℤ),
      maxServingsLoop p (l₁ ++ ing :: l₂) acc ≤
        max 0 (Int.floor (a.quantity / ing.quantity)) := by
  intro l₁
  induction l₁ with
  | nil =>
    intro acc
    simp only [List.nil_append]
    rw [maxServingsLoop_cons_found p ing l₂ acc a hst hfind, if_pos hq, hum, if_pos rfl]
    cases acc with
    | none => exact maxServingsLoop_le_acc p l₂ _
    | some m =>
      calc maxServingsLoop p l₂ (combineBound (some m) ⌊a.quantity / ing.quantity⌋)
          ≤ max 0 (min m ⌊a.quantity / ing.quantity⌋) := maxServingsLoop_le_acc p l₂ _
        _ ≤ max 0 ⌊a.quantity / ing.quantity⌋ := max_le_max le_rfl (min_le_right _ _)
  | cons x xs ih =>
    intro acc
    simp only [List.cons_append]
    cases hstx : isPantryStaple x.name with
    | true =>
      rw [maxServingsLoop_cons_staple p x _ acc hstx]
      exact ih acc
    | false =>
      cases hfindx : findAvail p x with
      | none =>
        rw [maxServingsLoop_cons_absent p x _ acc hstx hfindx]
        exact le_max_left 0 _
      | some b =>
        rw [maxServingsLoop_cons_found p x _ acc b hstx hfindx]
        by_cases hq0 : 0 < x.quantity
        · rw [if_pos hq0]
          cases humx : unitsMatch b x with
          | true => rw [if_pos rfl]; exact ih _
          | false => simp
        · rw [if_neg hq0]; exact ih acc

/-- Counterexample to C1: flour required in litres with a name-matched pantry
entry in grams. The claim prescribes `available = 0` (incompatible unit) and
therefore one emitted item of amount 1 × 1 − 0 = 1 at one serving; the code
emits nothing, because the rendering treats a name match with a different
normalized unit as no shortfall. -/
theorem c1_counterexample :
    computeShoppingList flourRecipe flourPantry 1 = [] ∧
      isPantryStaple "flour" = false ∧
      findAvail flourPantry ⟨"flour", 1, "l"⟩ = some ⟨"flour", 0, "g"⟩ ∧
      normalizeString "g" ≠ normalizeString "l" := by
  refine ⟨?_, rfl, rfl, by decide⟩
  rfl

theorem shoppingSpec_staple (p : List AvailableIngredient) (s : ℕ) (ing : Ingredient)
    (h : isPantryStaple ing.name = true) : shoppingSpec p s ing = none := by
  rw [shoppingSpec, if_pos h]

theorem shoppingSpec_absent (p : List AvailableIngredient) (s : ℕ) (ing : Ingredient)
    (h : isPantryStaple ing.name = false) (hfind : findAvail p ing = none) :
    shoppingSpec p s ing =
      if 0 < ing.quantity * (s : ℚ) then
        some { name := ing.name, amountToBuy := round2 (ing.quantity * s),
               unit := ing.unit }
      else none := by
  rw [shoppingSpec, if_neg (by simp [h]), hfind]

theorem shoppingSpec_found (p : List AvailableIngredient) (s : ℕ) (ing : Ingredient)
    (a : AvailableIngredient)
    (h : isPantryStaple ing.name = false) (hfind : findAvail p ing = some a) :
    shoppingSpec p s ing =
      if (normalizeString a.unit == normalizeString ing.unit) = true then
        if a.quantity < ing.quantity * (s : ℚ) then
          some { name := ing.name, amountToBuy := round2 (ing.quantity * s - a.quantity),
                 unit := ing.unit }
        else none
      else none := by
  rw [shoppingSpec, if_neg (by simp [h]), hfind]

/-- C1 (amended): for positive per-serving quantities and a requested serving
count of at least one, the emitted shopping list is exactly the
per-ingredient rule of `shoppingSpec`: unit compatibility is strict
normalized-unit equality (a name match with any other unit — discrete-unit
class included — emits nothing and counts as no shortfall); with no name
match `available = 0`; no item when `s × perServingQty ≤ available`, and
exactly one item of amount `s × perServingQty − available` rounded to two
decimals otherwise. -/
theorem c1_amended_shopping_list (r : Recipe) (p : List AvailableIngredient)
    (s : ℕ) (hpos : ∀ ing ∈ r.ingredients, 0 < ing.quantity) (hs : 1 ≤ s) :
    computeShoppingList r p s = r.ingredients.filterMap (shoppingSpec p s) := by
  simp only [computeShoppingList]
  apply List.filterMap_congr
  intro ing hmem
  have hq : 0 < ing.quantity := hpos ing hmem
  have hs' : (0 : ℤ) < (s : ℤ) := by exact_mod_cast Nat.lt_of_lt_of_le Nat.zero_lt_one hs
  have hsq : (0 : ℚ) < (s : ℚ) := by exact_mod_cast Nat.lt_of_lt_of_le Nat.zero_lt_one hs
  cases hst : isPantryStaple ing.name with
  | true =>
    rw [shoppingSpec_staple p s ing hst]
    simp [hst]
  | false =>
    cases hfind : findAvail p ing with
    | none =>
      rw [shoppingSpec_absent p s ing hst hfind]
      have hms : calculateMaxServings r p = 0 :=
        maxServingsLoop_eq_zero p r.ingredients none ⟨ing, hmem, hst, Or.inl hfind⟩
      have hsf : shortfallOf p s ing = ing.quantity * s := by
        rw [shortfallOf, hfind]
      have hpos' : (0 : ℚ) < ing.quantity * s := mul_pos hq hsq
      rw [if_pos hpos']
      rw [if_pos ⟨by rw [hms]; exact hs', by rw [hsf]; exact hpos', rfl⟩]
      rw [hsf]
    | some a =>
      rw [shoppingSpec_found p s ing a hst hfind]
      cases hunit : (normalizeString a.unit == normalizeString ing.unit) with
      | false =>
        have hsf : shortfallOf p s ing = 0 := by
          rw [shortfallOf, hfind]
          simp [hunit]
        rw [if_neg (show ¬((false : Bool) = true) by simp)]
        rw [if_neg]
        rintro ⟨-, hsf', -⟩
        rw [hsf] at hsf'
        exact lt_irrefl 0 hsf'
      | true =>
        have hum : unitsMatch a ing = true := by
          rw [unitsMatch, hunit, Bool.true_or]
        have hsf : shortfallOf p s ing = max 0 (ing.quantity * s - a.quantity) := by
          rw [shortfallOf, hfind]
          simp [hunit]
        rw [if_pos rfl]
        by_cases hlt : a.quantity < ing.quantity * s
        · have hsub : (0 : ℚ) < ing.quantity * s - a.quantity := sub_pos.mpr hlt
          have hsfv : shortfallOf p s ing = ing.quantity * s - a.quantity := by
            rw [hsf]; exact max_eq_right hsub.le
          have hms : calculateMaxServings r p < (s : ℤ) := by
            rcases List.append_of_mem hmem with ⟨l₁, l₂, hdecomp⟩
            have hb : calculateMaxServings r p ≤ max 0 ⌊a.quantity / ing.quantity⌋ := by
              rw [calculateMaxServings, hdecomp]
              exact maxServingsLoop_le_bound p l₂ ing a hst hfind hq hum l₁ none
            refine lt_of_le_of_lt hb (max_lt hs' ?_)
            rw [Int.floor_lt]
            push_cast
            rw [div_lt_iff hq]
            calc a.quantity < ing.quantity * s := hlt
              _ = s * ing.quantity := mul_comm _ _
          rw [if_pos hlt, if_pos ⟨hms, by rw [hsfv]; exact hsub, rfl⟩, hsfv]
        · have hsf0 : shortfallOf p s ing = 0 := by
            rw [hsf]
            exact max_eq_left (sub_nonpos.mpr (not_lt.mp hlt))
          rw [if_neg hlt, if_neg]
          rintro ⟨-, hsf', -⟩
          rw [hsf0] at hsf'
          exact lt_irrefl 0 hsf'

/-- Witness for C1 (amended) at a concrete input: four servings of the egg
recipe against six pantry eggs match the per-ingredient rule (one item: buy
two eggs). -/
theorem c1_amended_shopping_list_witness :
    computeShoppingList eggRecipe eggPantry 4 =
      eggRecipe.ingredients.filterMap (shoppingSpec eggPantry 4) :=
  c1_amended_shopping_list eggRecipe eggPantry 4
    (by
      intro ing hm
      simp only [eggRecipe] at hm
      rcases List.mem_singleton.mp hm with rfl
      norm_num)
    (by norm_num)

end MealApp
